import Mathlib

/-!
# alog: an asynchronous, date-rotating file logger

A shallow embedding of `alog.go` and a verification of its specification.

Go strings are modelled as lists of characters.  The Go library functions the
logger calls (`time.Format`, `time.Parse`, `fmt.Sprintf`, `filepath.Base`,
`filepath.Join`, `log.Logger.Output`, `os.OpenFile`, `os.Create`) are modelled
from their documented behaviour; the logger itself is translated
function by function.  Of `fmt.Sprintf` the scanning loop, the plain verbs of
`int` and `string` and the error forms are modelled; what it does at a directive
with flags, width, precision or argument index, and how it prints other verbs
and other operands, is a parameter (`Fmt`) over which every theorem is
quantified.  The three concurrent activities (producers, the writer
goroutine, the rotation monitor) are modelled as atomic steps on one state:
`outPut` and `rotate` exclude each other through the `RWMutex`, and a receive
from the channel commutes with a rotation.
-/

namespace Alog

/-- Go strings. -/
abbrev Str := List Char

/-! ## package time -/

/-- The fields of a `time.Time` read in its own location. -/
structure Time where
  year : Nat
  month : Nat
  day : Nat
  hour : Nat
  minute : Nat
  second : Nat
  nsec : Nat
deriving DecidableEq

/-- The zero `time.Time`, which `time.Parse` returns together with an error. -/
def Time.zero : Time := ⟨1, 1, 1, 0, 0, 0, 0⟩

/-- The layout constant `DATEFORMAT = "2006-01-02"` is the only layout used; it is
built into `Time.Format` and `Parse` below. -/
def DATEFORMAT : Str := "2006-01-02".toList

def isLeap (year : Nat) : Bool :=
  year % 4 == 0 && (year % 100 != 0 || year % 400 == 0)

def daysIn (month year : Nat) : Nat :=
  if month = 2 then (if isLeap year then 29 else 28)
  else if month = 4 ∨ month = 6 ∨ month = 9 ∨ month = 11 then 30
  else 31

/-- A clock reading with a four-digit year: what `time.Now()` returns. -/
def Time.valid (t : Time) : Prop :=
  t.year ≤ 9999 ∧ 1 ≤ t.month ∧ t.month ≤ 12 ∧ 1 ≤ t.day ∧ t.day ≤ daysIn t.month t.year

instance (t : Time) : Decidable t.valid := by
  unfold Time.valid; infer_instance

/-- The function `appendInt` of package time: decimal, zero-padded to `width`, with the
two fast paths for 2- and 4-digit fields. -/
def appendInt (x width : Nat) : Str :=
  if width = 2 ∧ x < 100 then [Nat.digitChar (x / 10), Nat.digitChar (x % 10)]
  else if width = 4 ∧ x < 10000 then
    [Nat.digitChar (x / 1000), Nat.digitChar (x / 100 % 10), Nat.digitChar (x / 10 % 10),
      Nat.digitChar (x % 10)]
  else
    let ds := Nat.toDigits 10 x
    List.replicate (width - ds.length) '0' ++ ds

/-- The method `t.Format(DATEFORMAT)`: `YYYY-MM-DD`. -/
def Time.Format (t : Time) : Str :=
  appendInt t.year 4 ++ '-' :: (appendInt t.month 2 ++ '-' :: appendInt t.day 2)

def isDigit (c : Char) : Bool := decide ('0' ≤ c ∧ c ≤ '9')

def digitVal (c : Char) : Nat := c.toNat - 48

/-- The function `time.Parse(DATEFORMAT, s)`: exactly four year digits, `-`, two month
digits, `-`, two day digits and nothing after them; month and day are range
checked.  On an error the zero time is returned (the caller drops the error). -/
def Parse (s : Str) : Time :=
  match s with
  | [y1, y2, y3, y4, s1, m1, m2, s2, d1, d2] =>
    if isDigit y1 ∧ isDigit y2 ∧ isDigit y3 ∧ isDigit y4 ∧ s1 = '-' ∧
        isDigit m1 ∧ isDigit m2 ∧ s2 = '-' ∧ isDigit d1 ∧ isDigit d2 then
      let year := 1000 * digitVal y1 + 100 * digitVal y2 + 10 * digitVal y3 + digitVal y4
      let month := 10 * digitVal m1 + digitVal m2
      let day := 10 * digitVal d1 + digitVal d2
      if 1 ≤ month ∧ month ≤ 12 ∧ 1 ≤ day ∧ day ≤ daysIn month year then
        ⟨year, month, day, 0, 0, 0, 0⟩
      else Time.zero
    else Time.zero
  | _ => Time.zero

/-- The method `t.After(u)` for two times in UTC. -/
def Time.After (t u : Time) : Prop :=
  u.year < t.year ∨ (u.year = t.year ∧ (u.month < t.month ∨ (u.month = t.month ∧
  (u.day < t.day ∨ (u.day = t.day ∧ (u.hour < t.hour ∨ (u.hour = t.hour ∧
  (u.minute < t.minute ∨ (u.minute = t.minute ∧ (u.second < t.second ∨
  (u.second = t.second ∧ u.nsec < t.nsec)))))))))))

instance (t u : Time) : Decidable (t.After u) := by
  unfold Time.After; infer_instance

/-- The calendar date of a clock reading, with no time of day. -/
def Time.date (t : Time) : Time := ⟨t.year, t.month, t.day, 0, 0, 0, 0⟩

/-- The expression `time.Parse(DATEFORMAT, time.Now().Format(DATEFORMAT))` that
`initDailyLogger`, `isNeedRotate` and `rotate` evaluate, for the clock reading `now`. -/
def today (now : Time) : Time := Parse now.Format

/-! ## package fmt -/

/-- The operands passed through `...interface{}`: a Go `int`, a Go `string`, or a value of
any other type, numbered; how package fmt renders the other values is part of
`Fmt` below. -/
inductive Operand where
  | int (n : Int)
  | str (s : Str)
  | other (id : Nat)
deriving DecidableEq

/-- What `doPrintf` carries from one directive to the next: the number of the next
operand (`argNum`) and whether an argument index has been used (`p.reordered`). -/
structure PState where
  argNum : Nat
  reordered : Bool
deriving DecidableEq

/-- The part of package fmt that is left open; every theorem holds whatever it does.
`complex` is `doPrintf` at a directive that starts with a flag, a width, a
precision, an argument index or the verb `w`: from the text after the `%`, the
operands and the state it gives the text written, the number of characters of
the directive after the `%`, and the state after the directive.  `otherArg` is
`printArg` for every verb and operand other than `%v`, `%d`, `%T` of an `int` and
`%v`, `%s`, `%T` of a `string`.  `extraItem` is the entry of an operand of another
type in `%!(EXTRA ...)`. -/
structure Fmt where
  complex : Str → List Operand → PState → Str × Nat × PState
  otherArg : Char → Operand → Str
  extraItem : Nat → Str

/-- Decimal rendering of an `int`. -/
def fmtInt : Int → Str
  | Int.ofNat m => Nat.toDigits 10 m
  | Int.negSucc m => '-' :: Nat.toDigits 10 (m + 1)

/-- The function `printArg` with no flag set: `%v` and `%d` of an `int` are its decimal, `%v`
and `%s` of a `string` are the string, `%T` is the type name. -/
def printArg (env : Fmt) (verb : Char) (a : Operand) : Str :=
  match a with
  | .int n =>
    if verb = 'v' ∨ verb = 'd' then fmtInt n
    else if verb = 'T' then "int".toList
    else env.otherArg verb a
  | .str s =>
    if verb = 'v' ∨ verb = 's' then s
    else if verb = 'T' then "string".toList
    else env.otherArg verb a
  | .other _ => env.otherArg verb a

/-- The entry `type=value` of one operand in `%!(EXTRA ...)`. -/
def extraItem (env : Fmt) : Operand → Str
  | .int n => "int=".toList ++ fmtInt n
  | .str s => "string=".toList ++ s
  | .other id => env.extraItem id

def extraList (env : Fmt) : List Operand → Str
  | [] => []
  | [a] => extraItem env a
  | a :: rest => extraItem env a ++ (", ".toList ++ extraList env rest)

/-- The end of `doPrintf`: unless an argument index was used, the operands that no verb
consumed are reported as `%!(EXTRA type=value, ...)`. -/
def extraArgs (env : Fmt) (a : List Operand) (st : PState) : Str :=
  if !st.reordered && decide (st.argNum < a.length) then
    "%!(EXTRA ".toList ++ extraList env (a.drop st.argNum) ++ [')']
  else []

/-- The characters after a `%` that do not stand for a plain verb: the flags `#0+- `, a
width, `*`, a precision, `[` of an argument index, and the verb `w`. -/
def isComplex (c : Char) : Bool :=
  c = '#' || c = '0' || c = '+' || c = '-' || c = ' ' || c = '[' || c = '*' || c = '.' ||
  c = 'w' || decide ('1' ≤ c ∧ c ≤ '9')

/-- The loop of `doPrintf`.  Literal text is copied up to the next `%`.  At a `%`: nothing
after it gives `%!(NOVERB)`; `%%` gives `%` and takes no operand; a plain verb
prints the next operand, or `%!c(MISSING)` when none is left; every other
directive is `env.complex`.  The counter `skip` is the number of characters still
to pass over: the verb after a `%`, or the characters of a complex directive. -/
def doPrintf (env : Fmt) : Str → Nat → List Operand → PState → Str
  | [], _, a, st => extraArgs env a st
  | _ :: rest, skip + 1, a, st => doPrintf env rest skip a st
  | c :: rest, 0, a, st =>
    if c = '%' then
      match rest.head? with
      | none => "%!(NOVERB)".toList ++ extraArgs env a st
      | some verb =>
        if isComplex verb then
          (env.complex rest a st).1 ++
            doPrintf env rest (env.complex rest a st).2.1 a (env.complex rest a st).2.2
        else if verb = '%' then '%' :: doPrintf env rest 1 a st
        else
          match a.get? st.argNum with
          | none => '%' :: '!' :: verb :: "(MISSING)".toList ++ doPrintf env rest 1 a st
          | some x =>
            printArg env verb x ++ doPrintf env rest 1 a { st with argNum := st.argNum + 1 }
    else c :: doPrintf env rest 0 a st

/-- The function `fmt.Sprintf`. -/
def Sprintf (env : Fmt) (format : Str) (a : List Operand) : Str :=
  doPrintf env format 0 a ⟨0, false⟩

/-! ### A sample of the open part -/

/-- Sample `otherArg`: `%x` and `%c` of an `int` that is not negative, `%q` of a string
without characters to escape, and the bad-verb form `%!c(type=value)` for the
rest. -/
def sampleArg (verb : Char) (a : Operand) : Str :=
  match a with
  | .int n =>
    if verb = 'x' then Nat.toDigits 16 n.toNat
    else if verb = 'c' then [Char.ofNat n.toNat]
    else '%' :: '!' :: verb :: '(' :: ("int=".toList ++ fmtInt n ++ [')'])
  | .str s =>
    if verb = 'q' then '"' :: s ++ ['"']
    else '%' :: '!' :: verb :: '(' :: ("string=".toList ++ s ++ [')'])
  | .other id => '%' :: '!' :: verb :: '(' :: ("other=".toList ++ Nat.toDigits 10 id ++ [')'])

/-- Sample rendering of one operand under a verb with no flag. -/
def sampleValue (verb : Char) (x : Operand) : Str :=
  match x with
  | .int n => if verb = 'v' ∨ verb = 'd' then fmtInt n else sampleArg verb x
  | .str t => if verb = 'v' ∨ verb = 's' then t else sampleArg verb x
  | .other _ => sampleArg verb x

/-- Sample `complex`: a one-digit argument index `[n]` in front of a verb, or the flags
`-` and `0` and a width in front of a verb, for operands that are not negative. -/
def sampleComplex (rest : Str) (a : List Operand) (st : PState) : Str × Nat × PState :=
  match rest with
  | '[' :: d :: ']' :: verb :: _ =>
    match a.get? (digitVal d - 1) with
    | none => ('%' :: '!' :: verb :: "(BADINDEX)".toList, 4, { st with reordered := true })
    | some x => (sampleValue verb x, 4, ⟨digitVal d, true⟩)
  | _ =>
    let flags := rest.takeWhile (fun c => c = '-' || c = '0')
    let digits := (rest.drop flags.length).takeWhile isDigit
    let width := digits.foldl (fun n c => 10 * n + digitVal c) 0
    let used := flags.length + digits.length
    match rest.drop used with
    | [] => ("%!(NOVERB)".toList, used, st)
    | verb :: _ =>
      match a.get? st.argNum with
      | none => ('%' :: '!' :: verb :: "(MISSING)".toList, used + 1, st)
      | some x =>
        let s := sampleValue verb x
        let pad := width - s.length
        let out := if '-' ∈ flags then s ++ List.replicate pad ' '
          else if '0' ∈ flags then List.replicate pad '0' ++ s
          else List.replicate pad ' ' ++ s
        (out, used + 1, { st with argNum := st.argNum + 1 })

/-- A sample `Fmt` for the concrete examples. -/
def fmt0 : Fmt :=
  ⟨sampleComplex, sampleArg, fun id => "other=".toList ++ Nat.toDigits 10 id⟩

/-! ## package path/filepath (Unix) -/

/-- The function `filepath.Base`: the last element of the path, trailing slashes removed;
`.` for the empty path and `/` for a path of slashes only. -/
def Base (path : Str) : Str :=
  if path = [] then ['.']
  else
    let p := (path.reverse.dropWhile (· = '/')).reverse
    let e := (p.reverse.takeWhile (· ≠ '/')).reverse
    if e = [] then ['/'] else e

/-- The elements of a path between its slashes. -/
def splitSlash : Str → List Str
  | [] => [[]]
  | c :: cs =>
    if c = '/' then [] :: splitSlash cs
    else
      match splitSlash cs with
      | [] => [[c]]
      | e :: es => (c :: e) :: es

/-- One element of the `Clean` loop on the stack of elements kept so far (last
element first): empty and `.` elements are dropped, `..` removes the element
before it when there is one that can be removed, is dropped at the root, and is
kept otherwise. -/
def cleanStep (rooted : Bool) (st : List Str) (e : Str) : List Str :=
  if e = [] ∨ e = ['.'] then st
  else if e = ['.', '.'] then
    match st with
    | [] => if rooted then [] else [e]
    | top :: below => if !rooted && top = ['.', '.'] then e :: st else below
  else e :: st

/-- The kept elements joined by slashes, in path order. -/
def joinElems : List Str → Str
  | [] => []
  | [e] => e
  | e :: below => joinElems below ++ '/' :: e

/-- The end of `Clean`: the kept elements `st` behind the root slash of a rooted path;
`.` when a path that is not rooted keeps nothing. -/
def render (rooted : Bool) (st : List Str) : Str :=
  if rooted then '/' :: joinElems st
  else if st = [] then ['.'] else joinElems st

/-- The function `filepath.Clean`. -/
def Clean (path : Str) : Str :=
  if path = [] then ['.']
  else
    let rooted := decide (path.head? = some '/')
    render rooted ((splitSlash path).foldl (cleanStep rooted) [])

/-- The function `filepath.Join` of two elements: empty elements are ignored, the rest
is joined by a slash and cleaned. -/
def Join (a b : Str) : Str :=
  if a ≠ [] then Clean (a ++ '/' :: b)
  else if b ≠ [] then Clean b
  else []

/-! ## package os: the file system -/

/-- The files by path, and which paths the system lets the process open or
create (the directory exists, permissions and name length allow it). -/
structure FS where
  files : Str → Option Str
  canOpen : Str → Bool

/-- An `*os.File` that is not nil. -/
structure File where
  path : Str
  closed : Bool
deriving DecidableEq

def FS.put (fs : FS) (p : Str) (content : Str) : FS :=
  { fs with files := fun q => if q = p then some content else fs.files q }

/-- The call `os.OpenFile(p, os.O_RDWR|os.O_APPEND|os.O_CREATE, 0666)`, its error dropped: a
file that is there keeps its contents, a missing one is created empty; on
failure the handle is nil. -/
def FS.OpenFile (fs : FS) (p : Str) : FS × Option File :=
  if fs.canOpen p then (fs.put p ((fs.files p).getD []), some ⟨p, false⟩)
  else (fs, none)

/-- The call `os.Create(p)`, its error dropped: the file is created or truncated; on
failure the handle is nil. -/
def FS.Create (fs : FS) (p : Str) : FS × Option File :=
  if fs.canOpen p then (fs.put p [], some ⟨p, false⟩)
  else (fs, none)

/-- The method `(*os.File).Write`, its error dropped: a nil or closed file takes nothing, an
open file gets the bytes at its end. -/
def FS.Write (fs : FS) (out : Option File) (bytes : Str) : FS :=
  match out with
  | none => fs
  | some file =>
    if file.closed then fs
    else fs.put file.path ((fs.files file.path).getD [] ++ bytes)

/-- The method `(*os.File).Close` on a possibly nil file. -/
def File.Close : Option File → Option File
  | none => none
  | some file => some { file with closed := true }

/-! ## package log -/

/-- The helper `itoa` of package log: decimal, zero-padded to `wid`. -/
def logItoa (i wid : Nat) : Str :=
  let ds := Nat.toDigits 10 i
  List.replicate (wid - ds.length) '0' ++ ds

/-- The header for the flags `log.LstdFlags|log.Lmicroseconds` and an empty prefix:
`2006/01/02 15:04:05.000000 `. -/
def formatHeader (t : Time) : Str :=
  logItoa t.year 4 ++ '/' :: logItoa t.month 2 ++ '/' :: logItoa t.day 2 ++ ' ' ::
  logItoa t.hour 2 ++ ':' :: logItoa t.minute 2 ++ ':' :: logItoa t.second 2 ++ '.' ::
  logItoa (t.nsec / 1000) 6 ++ [' ']

/-- The bytes `(*log.Logger).Output` writes for the message `s` at the time `now`: the header,
the message, and a newline unless the message ends in one. -/
def logLine (now : Time) (s : Str) : Str :=
  formatHeader now ++ s ++ (if s.getLast? = some '\n' then [] else ['\n'])

/-! ## alog.go -/

/-- The type `LEVEL` (a byte). -/
abbrev LEVEL := Nat

def INFO : LEVEL := 0
def DEBUG : LEVEL := 1
def WARN : LEVEL := 2
def ERROR : LEVEL := 3

def DEFAULT_LOG_LEVEL : LEVEL := ERROR

/-- A buffered `chan string`. -/
structure Chan where
  buf : List Str
  cap : Nat
  closed : Bool
deriving DecidableEq

/-- How a call ends: it returns, it blocks on the channel, or it panics. -/
inductive Outcome (α : Type) where
  | returned (a : α)
  | blocked
  | panicked

/-- The statement `c <- s`: a send on a closed channel panics, a send on a full one blocks. -/
def Chan.send (c : Chan) (s : Str) : Outcome Chan :=
  if c.closed then .panicked
  else if c.buf.length < c.cap then .returned { c with buf := c.buf ++ [s] }
  else .blocked

/-- The expression `<-c`: the oldest entry; on a closed and drained channel the zero value;
on an open empty channel the receive blocks. -/
def Chan.recv (c : Chan) : Outcome (Str × Chan) :=
  match c.buf with
  | s :: rest => .returned (s, { c with buf := rest })
  | [] => if c.closed then .returned ([], c) else .blocked

/-- The struct `logger`.  The field `lger` is nil (`none`) or a `log.Logger` writing to
the given file.  The lock `mu` is rendered by the atomicity of the steps below;
`timeScan` is never read. -/
structure logger where
  fileDir : Str
  fileName : Str
  date : Time
  logFile : Option File
  lger : Option (Option File)
  logChan : Chan
  logLevel : LEVEL
deriving DecidableEq

/-- A logger together with the file system it writes to. -/
structure World where
  fs : FS
  lg : logger

def joinFilePath (path file : Str) : Str := Join path file

def shortFileName (file : Str) : Str := Base file

/-- The method `initDailyLogger`, on the struct `NewLogger` built, for the clock reading `now`. -/
def initDailyLogger (fs : FS) (now : Time) (f : logger) : World :=
  let t := today now
  let fileName := f.fileName ++ '.' :: t.Format
  let logFile := joinFilePath f.fileDir fileName
  let r := fs.OpenFile logFile
  ⟨r.1, { f with date := t, fileName := fileName, logFile := r.2, lger := some r.2 }⟩

/-- The constructor `NewLogger(dir, name)`. -/
def NewLogger (fs : FS) (now : Time) (dir name : Str) : World :=
  initDailyLogger fs now
    { fileDir := dir, fileName := name, date := Time.zero, logFile := none, lger := none,
      logChan := ⟨[], 500, false⟩, logLevel := DEFAULT_LOG_LEVEL }

def SetLogLevel (f : logger) (level : LEVEL) : logger :=
  { f with logLevel := level }

def isNeedRotate (f : logger) (now : Time) : Bool :=
  if (today now).After f.date then true else false

/-- The method `rotate`, for the clock reading `now`: the old handle is closed and
replaced by the one `os.Create` returns for the new name. -/
def rotate (w : World) (now : Time) : World :=
  let t := today now
  let fileName := w.lg.fileName ++ '.' :: t.Format
  let logFile := joinFilePath w.lg.fileDir fileName
  let r := w.fs.Create logFile
  ⟨r.1, { w.lg with date := t, fileName := fileName, logFile := r.2, lger := some r.2 }⟩

/-- The method `checkFile`: one tick of `monitorFile`.  The clock is read once in `isNeedRotate`
(`now1`) and once more in `rotate` (`now2`). -/
def checkFile (w : World) (now1 now2 : Time) : World :=
  if isNeedRotate w.lg now1 then rotate w now2 else w

/-- The method `Close`: closing a closed channel panics. -/
def Close (f : logger) : Outcome logger :=
  if f.logChan.closed then .panicked
  else .returned { f with logChan := { f.logChan with closed := true }, lger := none,
                          logFile := File.Close f.logFile }

/-- The method `outPut`, at the clock reading `now`: a nil `lger` panics. -/
def outPut (w : World) (now : Time) (str : Str) : Outcome World :=
  match w.lg.lger with
  | none => .panicked
  | some out => .returned { w with fs := w.fs.Write out (logLine now str) }

/-- One iteration of the loop of `writeLog`. -/
def writeLog (w : World) (now : Time) : Outcome World :=
  match w.lg.logChan.recv with
  | .returned (str, c) => outPut { w with lg := { w.lg with logChan := c } } now str
  | .blocked => .blocked
  | .panicked => .panicked

/-- The statement `f.logChan <- s` inside a logging call. -/
def enqueue (f : logger) (s : Str) : Outcome logger :=
  match f.logChan.send s with
  | .returned c => .returned { f with logChan := c }
  | .blocked => .blocked
  | .panicked => .panicked

/-- The operands `shortFileName(file), line` of the first `Sprintf` of a logging call. -/
def siteArgs (file : Str) (line : Int) : List Operand :=
  [.str (shortFileName file), .int line]

/-- The method `Info`, called from (`file`, `line`) as `runtime.Caller(1)` reports it. -/
def Info (env : Fmt) (f : logger) (file : Str) (line : Int) (format : Str) (v : List Operand) :
    Outcome logger :=
  if f.logLevel ≤ INFO then
    enqueue f (Sprintf env "[%v:%v]".toList (siteArgs file line) ++
      Sprintf env ("[INFO] ".toList ++ format) v)
  else .returned f

def Debug (env : Fmt) (f : logger) (file : Str) (line : Int) (format : Str) (v : List Operand) :
    Outcome logger :=
  if f.logLevel ≤ DEBUG then
    enqueue f (Sprintf env "[%v:%v]".toList (siteArgs file line) ++
      Sprintf env ("[DEBUG] ".toList ++ format) v)
  else .returned f

def Warn (env : Fmt) (f : logger) (file : Str) (line : Int) (format : Str) (v : List Operand) :
    Outcome logger :=
  if f.logLevel ≤ WARN then
    enqueue f (Sprintf env "[%v:%v]".toList (siteArgs file line) ++
      Sprintf env ("[WARN] ".toList ++ format) v)
  else .returned f

def Error (env : Fmt) (f : logger) (file : Str) (line : Int) (format : Str) (v : List Operand) :
    Outcome logger :=
  if f.logLevel ≤ ERROR then
    enqueue f (Sprintf env "[%v:%v]".toList (siteArgs file line) ++
      Sprintf env ("[ERROR] ".toList ++ format) v)
  else .returned f

/-! ## Vocabulary of the specification -/

/-- The four logging entry points. -/
inductive Method where
  | Info | Debug | Warn | Error
deriving DecidableEq

def Method.level : Method → LEVEL
  | .Info => INFO
  | .Debug => DEBUG
  | .Warn => WARN
  | .Error => ERROR

def Method.tag : Method → Str
  | .Info => "INFO".toList
  | .Debug => "DEBUG".toList
  | .Warn => "WARN".toList
  | .Error => "ERROR".toList

def Method.call (m : Method) (env : Fmt) (f : logger) (file : Str) (line : Int) (format : Str)
    (v : List Operand) : Outcome logger :=
  match m with
  | .Info => Alog.Info env f file line format v
  | .Debug => Alog.Debug env f file line format v
  | .Warn => Alog.Warn env f file line format v
  | .Error => Alog.Error env f file line format v

/-- The line the specification gives for a call: `[file:line][LEVEL] <formatted message>`. -/
def specLine (env : Fmt) (m : Method) (file : Str) (line : Int) (format : Str)
    (v : List Operand) : Str :=
  '[' :: shortFileName file ++ ':' :: fmtInt line ++ ']' :: '[' :: m.tag ++ ']' :: ' ' ::
    Sprintf env format v

/-- The logger with one more entry at the back of its queue. -/
def logger.push (f : logger) (s : Str) : logger :=
  { f with logChan := { f.logChan with buf := f.logChan.buf ++ [s] } }

/-- The date suffixes `.YYYY-MM-DD` of the given dates, one after the other. -/
def dateSuffixes : List Time → Str
  | [] => []
  | d :: ds => '.' :: d.Format ++ dateSuffixes ds

/-- The method `rotate` run once for each of the given clock readings. -/
def rotations (w : World) (rs : List Time) : World := rs.foldl rotate w

/-- What happens at the logger between construction and `Close`, without rotation:
a producer makes a logging call, or the writer goroutine runs one iteration of
its loop at the clock reading `now`. -/
inductive Ev where
  | call (m : Method) (file : Str) (line : Int) (format : Str) (v : List Operand)
  | write (now : Time)

def step (env : Fmt) (w : World) : Ev → Outcome World
  | .call m file line format v =>
    match m.call env w.lg file line format v with
    | .returned f => .returned { w with lg := f }
    | .blocked => .blocked
    | .panicked => .panicked
  | .write now => writeLog w now

/-- The events in order; the run stops at the first one that blocks or panics. -/
def run (env : Fmt) (w : World) : List Ev → Outcome World
  | [] => .returned w
  | e :: es =>
    match step env w e with
    | .returned w' => run env w' es
    | .blocked => .blocked
    | .panicked => .panicked

/-- The lines of the logging calls among the events that the minimum level `lvl`
lets through, in call order. -/
def accepted (env : Fmt) (lvl : LEVEL) : List Ev → List Str
  | [] => []
  | .call m file line format v :: es =>
    if lvl ≤ m.level then specLine env m file line format v :: accepted env lvl es
    else accepted env lvl es
  | .write _ :: es => accepted env lvl es

/-- The clock readings of the writer iterations among the events. -/
def writes : List Ev → List Time
  | [] => []
  | .call _ _ _ _ _ :: es => writes es
  | .write now :: es => now :: writes es

/-- The bytes of the messages written one after the other, the i-th message at the
i-th clock reading. -/
def logLines : List Time → List Str → Str
  | t :: ts, s :: ss => logLine t s ++ logLines ts ss
  | _, _ => []

/-- The value a call returned, if it returned. -/
def Outcome.result {α : Type} : Outcome α → Option α
  | .returned a => some a
  | .blocked => none
  | .panicked => none

/-- The states a logger goes through after `NewLogger`: logging calls, `SetLogLevel`,
iterations of the writer, and rotation checks. -/
inductive Reachable (env : Fmt) : World → Prop where
  | init (fs : FS) (now : Time) (dir name : Str) :
      Reachable env (NewLogger fs now dir name)
  | call (w : World) (m : Method) (file : Str) (line : Int) (format : Str)
      (v : List Operand) (f : logger) :
      Reachable env w → m.call env w.lg file line format v = .returned f →
      Reachable env { w with lg := f }
  | setLevel (w : World) (level : LEVEL) :
      Reachable env w → Reachable env { w with lg := SetLogLevel w.lg level }
  | write (w : World) (now : Time) (w' : World) :
      Reachable env w → writeLog w now = .returned w' → Reachable env w'
  | check (w : World) (now1 now2 : Time) :
      Reachable env w → Reachable env (checkFile w now1 now2)

/-- The logger writes through `lger` to its `logFile`, and that file, when there is one,
is open and is the one at the path of `fileName` in `fileDir`. -/
def Named (w : World) : Prop :=
  w.lg.lger = some w.lg.logFile ∧
  ∀ old ∈ w.lg.logFile, old = ⟨joinFilePath w.lg.fileDir w.lg.fileName, false⟩

instance (w : World) : Decidable (Named w) := by
  unfold Named; infer_instance

/-! ## Sample inputs -/

/-- An empty file system in which every path can be opened. -/
def fs0 : FS := ⟨fun _ => none, fun _ => true⟩

/-- The clock reading 2024-01-01 10:30:00. -/
def t0 : Time := ⟨2024, 1, 1, 10, 30, 0, 0⟩

/-- The clock reading 2024-01-02 00:03:00. -/
def t1 : Time := ⟨2024, 1, 2, 0, 3, 0, 0⟩

/-- The logger `NewLogger("logs", "app")` built at `t0` in `fs0`. -/
def w0 : World := NewLogger fs0 t0 "logs".toList "app".toList

/-! ## Formatting lemmas -/

theorem doPrintf_literal (env : Fmt) (p format : Str) (a : List Operand) (st : PState)
    (h : '%' ∉ p) :
    doPrintf env (p ++ format) 0 a st = p ++ doPrintf env format 0 a st := by
  induction p with
  | nil => rfl
  | cons c p ih =>
    have hc : c ≠ '%' := fun e => h (by simp [e])
    have hp : '%' ∉ p := fun e => h (by simp [e])
    rw [List.cons_append, doPrintf.eq_def]
    simp only [if_neg hc, ih hp, List.cons_append]

theorem Sprintf_site (env : Fmt) (file : Str) (line : Int) :
    Sprintf env "[%v:%v]".toList (siteArgs file line) =
      '[' :: shortFileName file ++ ':' :: fmtInt line ++ [']'] := by
  have e : "[%v:%v]".toList = ['[', '%', 'v', ':', '%', 'v', ']'] := by decide
  have hv : isComplex 'v' = false := by decide
  rw [e]
  simp [Sprintf, siteArgs, doPrintf, printArg, extraArgs, hv]

theorem Sprintf_tag (env : Fmt) (m : Method) (format : Str) (v : List Operand) :
    Sprintf env ('[' :: m.tag ++ ']' :: ' ' :: format) v =
      '[' :: m.tag ++ ']' :: ' ' :: Sprintf env format v := by
  have h : '%' ∉ ('[' :: m.tag ++ [']', ' ']) := by cases m <;> decide
  have := doPrintf_literal env ('[' :: m.tag ++ [']', ' ']) format v ⟨0, false⟩ h
  simpa [Sprintf] using this

/-- Every logging call is the level test followed by the send of the line
`[file:line][LEVEL] <formatted message>`. -/
theorem call_eq (env : Fmt) (m : Method) (f : logger) (file : Str) (line : Int)
    (format : Str) (v : List Operand) :
    m.call env f file line format v =
      if f.logLevel ≤ m.level then enqueue f (specLine env m file line format v)
      else .returned f := by
  have key : Sprintf env "[%v:%v]".toList (siteArgs file line) ++
      Sprintf env ('[' :: m.tag ++ ']' :: ' ' :: format) v =
        specLine env m file line format v := by
    rw [Sprintf_site, Sprintf_tag]; simp [specLine]
  cases m
  · have e : "[INFO] ".toList ++ format = '[' :: Method.Info.tag ++ ']' :: ' ' :: format := by
      simp [Method.tag]
    simp only [Method.call, Info, e, key, Method.level]
  · have e : "[DEBUG] ".toList ++ format = '[' :: Method.Debug.tag ++ ']' :: ' ' :: format := by
      simp [Method.tag]
    simp only [Method.call, Debug, e, key, Method.level]
  · have e : "[WARN] ".toList ++ format = '[' :: Method.Warn.tag ++ ']' :: ' ' :: format := by
      simp [Method.tag]
    simp only [Method.call, Warn, e, key, Method.level]
  · have e : "[ERROR] ".toList ++ format = '[' :: Method.Error.tag ++ ']' :: ' ' :: format := by
      simp [Method.tag]
    simp only [Method.call, Error, e, key, Method.level]

theorem enqueue_room (f : logger) (s : Str) (hopen : f.logChan.closed = false)
    (hroom : f.logChan.buf.length < f.logChan.cap) :
    enqueue f s = .returned (f.push s) := by
  simp [enqueue, Chan.send, hopen, hroom, logger.push]

/-! ## Dates and digits -/

theorem digitChar_ne_slash (k : Nat) : Nat.digitChar k ≠ '/' := by
  rcases Nat.lt_or_ge k 16 with h | h
  · interval_cases k <;> decide
  · have e : Nat.digitChar k = '*' := by
      unfold Nat.digitChar
      iterate 16 rw [if_neg (by omega)]
    rw [e]; decide

theorem toDigitsCore_noslash (fuel : Nat) : ∀ (n : Nat) (ds : List Char),
    (∀ c ∈ ds, c ≠ '/') → ∀ c ∈ Nat.toDigitsCore 10 fuel n ds, c ≠ '/' := by
  induction fuel with
  | zero => intro n ds h; simpa [Nat.toDigitsCore] using h
  | succ fuel ih =>
    intro n ds h
    have hd : ∀ c ∈ Nat.digitChar (n % 10) :: ds, c ≠ '/' := by
      intro c hc
      rcases List.mem_cons.mp hc with e | e
      · rw [e]; exact digitChar_ne_slash _
      · exact h c e
    simp only [Nat.toDigitsCore]
    split_ifs
    · exact hd
    · exact ih _ _ hd

theorem toDigits_noslash (n : Nat) : ∀ c ∈ Nat.toDigits 10 n, c ≠ '/' :=
  toDigitsCore_noslash _ _ _ (by simp)

theorem appendInt_noslash (x width : Nat) : ∀ c ∈ appendInt x width, c ≠ '/' := by
  intro c hc
  unfold appendInt at hc
  split_ifs at hc
  · simp at hc
    rcases hc with e | e <;> rw [e] <;> exact digitChar_ne_slash _
  · simp at hc
    rcases hc with e | e | e | e <;> rw [e] <;> exact digitChar_ne_slash _
  · simp only [List.mem_append] at hc
    rcases hc with e | e
    · have := List.eq_of_mem_replicate e
      rw [this]; decide
    · exact toDigits_noslash _ _ e

theorem Format_noslash (t : Time) : '/' ∉ t.Format := by
  intro h
  simp only [Time.Format, List.mem_append, List.mem_cons] at h
  rcases h with h | h | h | h | h
  · exact appendInt_noslash _ _ _ h rfl
  · exact absurd h (by decide)
  · exact appendInt_noslash _ _ _ h rfl
  · exact absurd h (by decide)
  · exact appendInt_noslash _ _ _ h rfl

theorem Format_length (t : Time) : 2 ≤ t.Format.length := by
  simp only [Time.Format, List.length_append, List.length_cons]
  omega

theorem isDigit_digitChar (k : Nat) (h : k < 10) : isDigit (Nat.digitChar k) = true := by
  interval_cases k <;> decide

theorem digitVal_digitChar (k : Nat) (h : k < 10) : digitVal (Nat.digitChar k) = k := by
  interval_cases k <;> decide

theorem daysIn_le (month year : Nat) : daysIn month year ≤ 31 := by
  unfold daysIn
  split_ifs <;> omega

/-- Formatting a clock reading as `YYYY-MM-DD` and parsing the text again gives the
calendar date of the reading. -/
theorem today_valid (now : Time) (h : now.valid) : today now = now.date := by
  obtain ⟨hy, hm1, hm2, hd1, hd2⟩ := h
  have hd3 : now.day ≤ 31 := le_trans hd2 (daysIn_le _ _)
  have e4 : appendInt now.year 4 = [Nat.digitChar (now.year / 1000),
      Nat.digitChar (now.year / 100 % 10), Nat.digitChar (now.year / 10 % 10),
      Nat.digitChar (now.year % 10)] := by
    unfold appendInt
    rw [if_neg (by omega), if_pos ⟨rfl, by omega⟩]
  have em : appendInt now.month 2 = [Nat.digitChar (now.month / 10),
      Nat.digitChar (now.month % 10)] := by
    unfold appendInt
    rw [if_pos ⟨rfl, by omega⟩]
  have ed : appendInt now.day 2 = [Nat.digitChar (now.day / 10),
      Nat.digitChar (now.day % 10)] := by
    unfold appendInt
    rw [if_pos ⟨rfl, by omega⟩]
  have hyv : 1000 * (now.year / 1000) + 100 * (now.year / 100 % 10) +
      10 * (now.year / 10 % 10) + now.year % 10 = now.year := by omega
  have hmv : 10 * (now.month / 10) + now.month % 10 = now.month := by omega
  have hdv : 10 * (now.day / 10) + now.day % 10 = now.day := by omega
  simp only [today, Time.Format, e4, em, ed, List.cons_append, List.nil_append, Parse]
  rw [digitVal_digitChar _ (by omega), digitVal_digitChar _ (by omega),
    digitVal_digitChar _ (by omega), digitVal_digitChar _ (by omega),
    digitVal_digitChar _ (by omega), digitVal_digitChar _ (by omega),
    digitVal_digitChar _ (by omega), digitVal_digitChar _ (by omega), hyv, hmv, hdv]
  rw [if_pos, if_pos ⟨hm1, hm2, hd1, hd2⟩]
  · rfl
  · refine ⟨isDigit_digitChar _ (by omega), isDigit_digitChar _ (by omega),
      isDigit_digitChar _ (by omega), isDigit_digitChar _ (by omega), trivial,
      isDigit_digitChar _ (by omega), isDigit_digitChar _ (by omega), trivial,
      isDigit_digitChar _ (by omega), isDigit_digitChar _ (by omega)⟩

/-! ## Path lemmas -/

theorem splitSlash_noslash (s : Str) (h : '/' ∉ s) : splitSlash s = [s] := by
  induction s with
  | nil => rfl
  | cons c s ih =>
    have hc : c ≠ '/' := fun e => h (by simp [e])
    have hs : '/' ∉ s := fun e => h (by simp [e])
    simp [splitSlash, hc, ih hs]

/-- Text without a slash appended to a path extends the last element of the path. -/
theorem splitSlash_append (p : Str) :
    ∃ init last, splitSlash p = init ++ [last] ∧
      ∀ s, '/' ∉ s → splitSlash (p ++ s) = init ++ [last ++ s] := by
  induction p with
  | nil => exact ⟨[], [], rfl, fun s hs => by simpa using splitSlash_noslash s hs⟩
  | cons c p ih =>
    obtain ⟨init, last, h1, h2⟩ := ih
    by_cases hc : c = '/'
    · refine ⟨[] :: init, last, ?_, ?_⟩
      · simp [splitSlash, hc, h1]
      · intro s hs
        simp [splitSlash, hc, h2 s hs]
    · cases init with
      | nil =>
        refine ⟨[], c :: last, ?_, ?_⟩
        · simp [splitSlash, hc, h1]
        · intro s hs
          simp [splitSlash, hc, h2 s hs]
      | cons i is =>
        refine ⟨(c :: i) :: is, last, ?_, ?_⟩
        · simp [splitSlash, hc, h1]
        · intro s hs
          simp [splitSlash, hc, h2 s hs]

theorem Clean_eq (p : Str) (h : p ≠ []) :
    Clean p = render (decide (p.head? = some '/'))
      ((splitSlash p).foldl (cleanStep (decide (p.head? = some '/'))) []) := by
  simp [Clean, h]

theorem cleanStep_real (rooted : Bool) (st : List Str) (e : Str) (h : 3 ≤ e.length) :
    cleanStep rooted st e = e :: st := by
  have h1 : e ≠ [] := by intro e'; rw [e'] at h; simp at h
  have h2 : e ≠ ['.'] := by intro e'; rw [e'] at h; simp at h
  have h3 : e ≠ ['.', '.'] := by intro e'; rw [e'] at h; simp at h
  simp [cleanStep, h1, h2, h3]

theorem cleanStep_cases (rooted : Bool) (st : List Str) (e : Str) :
    cleanStep rooted st e = st ∨ cleanStep rooted st e = e :: st ∨
      ∃ top, st = top :: cleanStep rooted st e := by
  by_cases h1 : e = [] ∨ e = ['.']
  · left; simp [cleanStep, h1]
  · by_cases h2 : e = ['.', '.']
    · cases st with
      | nil =>
        cases rooted
        · right; left; simp [cleanStep, h2]
        · left; simp [cleanStep, h2]
      | cons top below =>
        by_cases ht : (!rooted && decide (top = ['.', '.'])) = true
        · right; left
          simp only [cleanStep, h2]
          simp [ht]
        · right; right
          refine ⟨top, ?_⟩
          simp only [cleanStep, h2]
          simp [ht]
    · right; left; simp [cleanStep, h1, h2]

theorem joinElems_cons_length (x : Str) (st : List Str) :
    (joinElems st).length + x.length ≤ (joinElems (x :: st)).length := by
  cases st with
  | nil => simp [joinElems]
  | cons t below => simp [joinElems]

theorem render_le (rooted : Bool) (st : List Str) :
    (render rooted st).length ≤ 1 + (joinElems st).length := by
  unfold render
  split_ifs with h1 h2
  · simp; omega
  · simp [h2, joinElems]
  · omega

theorem render_ge (rooted : Bool) (x : Str) (st : List Str) :
    (joinElems (x :: st)).length ≤ (render rooted (x :: st)).length := by
  unfold render
  split_ifs with h1 h2
  · simp
  · simp at h2
  · exact le_refl _

/-- The cleaned path ends with its last kept element. -/
theorem render_cons (rooted : Bool) (st : List Str) :
    ∃ pre, ∀ x, render rooted (x :: st) = pre ++ x := by
  cases st with
  | nil =>
    cases rooted
    · exact ⟨[], fun x => by simp [render, joinElems]⟩
    · exact ⟨['/'], fun x => by simp [render, joinElems]⟩
  | cons t below =>
    cases rooted
    · exact ⟨joinElems (t :: below) ++ ['/'], fun x => by simp [render, joinElems]⟩
    · exact ⟨'/' :: joinElems (t :: below) ++ ['/'], fun x => by simp [render, joinElems]⟩

theorem head_append (p s : Str) (h : p ≠ []) : (p ++ s).head? = p.head? := by
  cases p with
  | nil => exact absurd rfl h
  | cons c p => rfl

/-- Appending text of at least three characters without a slash to a path makes
the cleaned path end with that text. -/
theorem Clean_append_suffix (p s : Str) (hs : '/' ∉ s) (hl : 3 ≤ s.length) :
    ∃ pre, Clean (p ++ s) = pre ++ s := by
  have hne : p ++ s ≠ [] := by
    intro e; rw [List.append_eq_nil] at e; rw [e.2] at hl; simp at hl
  obtain ⟨init, last, _, h2⟩ := splitSlash_append p
  rw [Clean_eq _ hne, h2 s hs, List.foldl_append]
  simp only [List.foldl_cons, List.foldl_nil]
  rw [cleanStep_real _ _ _ (by simp; omega)]
  obtain ⟨pre, hpre⟩ := render_cons (decide ((p ++ s).head? = some '/'))
    (List.foldl (cleanStep (decide ((p ++ s).head? = some '/'))) [] init)
  exact ⟨pre ++ last, by rw [hpre]; simp⟩

/-- Appending text of at least three characters without a slash to a path changes
the cleaned path. -/
theorem Clean_append_ne (p s : Str) (hp : p ≠ []) (hs : '/' ∉ s) (hl : 3 ≤ s.length) :
    Clean (p ++ s) ≠ Clean p := by
  have hne : p ++ s ≠ [] := by simp [hp]
  obtain ⟨init, last, h1, h2⟩ := splitSlash_append p
  rw [Clean_eq _ hne, Clean_eq _ hp, h2 s hs, h1, head_append p s hp, List.foldl_append,
    List.foldl_append]
  simp only [List.foldl_cons, List.foldl_nil]
  rw [cleanStep_real _ _ _ (by simp; omega)]
  generalize decide (p.head? = some '/') = r
  generalize List.foldl (cleanStep r) [] init = S
  intro e
  have hlen := congrArg List.length e
  have hge := render_ge r (last ++ s) S
  have hj := joinElems_cons_length (last ++ s) S
  rcases cleanStep_cases r S last with c | c | ⟨top, c⟩
  · rw [c] at hlen
    have := render_le r S
    simp at hj
    omega
  · rw [c] at e
    obtain ⟨pre, hpre⟩ := render_cons r S
    rw [hpre, hpre] at e
    have := congrArg List.length e
    simp only [List.length_append] at this
    omega
  · have hle := render_le r (cleanStep r S last)
    have hj2 := joinElems_cons_length top (cleanStep r S last)
    have hS := congrArg (fun l => (joinElems l).length) c
    simp only at hS
    simp at hj
    omega

theorem Join_append_suffix (a b s : Str) (hs : '/' ∉ s) (hl : 3 ≤ s.length) :
    ∃ pre, Join a (b ++ s) = pre ++ s := by
  unfold Join
  by_cases ha : a = []
  · have hb : b ++ s ≠ [] := by
      intro e; rw [List.append_eq_nil] at e; rw [e.2] at hl; simp at hl
    simp only [ha, ne_eq, not_true_eq_false, if_false, hb, not_false_eq_true, if_true]
    exact Clean_append_suffix b s hs hl
  · simp only [ne_eq, ha, not_false_eq_true, if_true]
    have := Clean_append_suffix (a ++ '/' :: b) s hs hl
    simpa using this

theorem Join_append_ne (a b s : Str) (hs : '/' ∉ s) (hl : 3 ≤ s.length) :
    Join a (b ++ s) ≠ Join a b := by
  unfold Join
  by_cases ha : a = []
  · have hbs : b ++ s ≠ [] := by
      intro e; rw [List.append_eq_nil] at e; rw [e.2] at hl; simp at hl
    simp only [ha, ne_eq, not_true_eq_false, if_false, hbs, not_false_eq_true, if_true]
    by_cases hb : b = []
    · simp only [hb, not_true_eq_false, if_false]
      obtain ⟨pre, h⟩ := Clean_append_suffix [] s hs hl
      rw [List.nil_append] at h ⊢
      rw [h]
      intro e; rw [List.append_eq_nil] at e; rw [e.2] at hl; simp at hl
    · simp only [hb, not_false_eq_true, if_true]
      exact Clean_append_ne b s hb hs hl
  · simp only [ne_eq, ha, not_false_eq_true, if_true]
    have := Clean_append_ne (a ++ '/' :: b) s (by simp) hs hl
    simpa using this

/-! ## Level filtering -/

/-- C1: with the minimum level set to `m`, a logging call of level `L` returns with
exactly one entry appended to the message queue if `m ≤ L` in declaration order
(the channel being open and not full, so that the send completes), and returns
with the logger unchanged otherwise. -/
theorem level_filter (env : Fmt) (f : logger) (m : LEVEL) (c : Method) (file : Str)
    (line : Int) (format : Str) (v : List Operand)
    (h : m ≤ c.level → f.logChan.closed = false ∧ f.logChan.buf.length < f.logChan.cap) :
    ∃ f', c.call env (SetLogLevel f m) file line format v = .returned f' ∧
      (m ≤ c.level →
        f' = (SetLogLevel f m).push (specLine env c file line format v) ∧
        f'.logChan.buf = f.logChan.buf ++ [specLine env c file line format v] ∧
        f'.logChan.buf.length = f.logChan.buf.length + 1) ∧
      (¬ m ≤ c.level → f' = SetLogLevel f m) := by
  by_cases hm : m ≤ c.level
  · obtain ⟨ho, hr⟩ := h hm
    refine ⟨(SetLogLevel f m).push (specLine env c file line format v), ?_, ?_, ?_⟩
    · rw [call_eq]
      have : (SetLogLevel f m).logLevel ≤ c.level := hm
      rw [if_pos this]
      exact enqueue_room _ _ ho hr
    · intro _
      simp [logger.push, SetLogLevel]
    · intro hn; exact absurd hm hn
  · refine ⟨SetLogLevel f m, ?_, ?_, ?_⟩
    · rw [call_eq]
      have : ¬ (SetLogLevel f m).logLevel ≤ c.level := hm
      rw [if_neg this]
    · intro hp; exact absurd hp hm
    · intro _; rfl

/-- C3: the logger `NewLogger` returns has minimum level `ERROR`: `Info`, `Debug` and
`Warn` return with the logger unchanged, and `Error` returns with exactly one
entry in the queue. -/
theorem fresh_logger_level (env : Fmt) (fs : FS) (now : Time) (dir name : Str) (file : Str)
    (line : Int) (format : Str) (v : List Operand) :
    (NewLogger fs now dir name).lg.logLevel = ERROR ∧
    (NewLogger fs now dir name).lg.logChan.buf = [] ∧
    Info env (NewLogger fs now dir name).lg file line format v =
      .returned (NewLogger fs now dir name).lg ∧
    Debug env (NewLogger fs now dir name).lg file line format v =
      .returned (NewLogger fs now dir name).lg ∧
    Warn env (NewLogger fs now dir name).lg file line format v =
      .returned (NewLogger fs now dir name).lg ∧
    ∃ f', Error env (NewLogger fs now dir name).lg file line format v = .returned f' ∧
      f'.logChan.buf = [specLine env .Error file line format v] := by
  refine ⟨rfl, rfl, ?_, ?_, ?_, ?_⟩
  · simp [Info, NewLogger, initDailyLogger, DEFAULT_LOG_LEVEL, ERROR, INFO]
  · simp [Debug, NewLogger, initDailyLogger, DEFAULT_LOG_LEVEL, ERROR, DEBUG]
  · simp [Warn, NewLogger, initDailyLogger, DEFAULT_LOG_LEVEL, ERROR, WARN]
  · refine ⟨(NewLogger fs now dir name).lg.push (specLine env .Error file line format v), ?_, ?_⟩
    · have h := call_eq env .Error (NewLogger fs now dir name).lg file line format v
      have hl : (NewLogger fs now dir name).lg.logLevel ≤ Method.Error.level := by
        simp [NewLogger, initDailyLogger, DEFAULT_LOG_LEVEL, Method.level]
      rw [if_pos hl] at h
      rw [show Error env (NewLogger fs now dir name).lg file line format v =
        Method.Error.call env (NewLogger fs now dir name).lg file line format v from rfl, h]
      exact enqueue_room _ _ rfl (by simp [NewLogger, initDailyLogger])
    · simp [logger.push, NewLogger, initDailyLogger]

/-- With the minimum level `WARN`: `Warn` and `Error` append one entry, `Info` and `Debug`
none. -/
theorem level_filter_witness :
    (WARN ≤ Method.Warn.level →
      w0.lg.logChan.closed = false ∧ w0.lg.logChan.buf.length < w0.lg.logChan.cap) ∧
    (∃ f', Method.Warn.call fmt0 (SetLogLevel w0.lg WARN) "main.go".toList 10 "x".toList [] =
        .returned f' ∧
      (WARN ≤ Method.Warn.level →
        f' = (SetLogLevel w0.lg WARN).push
          (specLine fmt0 .Warn "main.go".toList 10 "x".toList []) ∧
        f'.logChan.buf =
          w0.lg.logChan.buf ++ [specLine fmt0 .Warn "main.go".toList 10 "x".toList []] ∧
        f'.logChan.buf.length = w0.lg.logChan.buf.length + 1) ∧
      (¬ WARN ≤ Method.Warn.level → f' = SetLogLevel w0.lg WARN)) ∧
    (∃ f', Method.Error.call fmt0 (SetLogLevel w0.lg WARN) "main.go".toList 10 "x".toList [] =
        .returned f' ∧
      (WARN ≤ Method.Error.level →
        f' = (SetLogLevel w0.lg WARN).push
          (specLine fmt0 .Error "main.go".toList 10 "x".toList []) ∧
        f'.logChan.buf =
          w0.lg.logChan.buf ++ [specLine fmt0 .Error "main.go".toList 10 "x".toList []] ∧
        f'.logChan.buf.length = w0.lg.logChan.buf.length + 1) ∧
      (¬ WARN ≤ Method.Error.level → f' = SetLogLevel w0.lg WARN)) ∧
    (∃ f', Method.Info.call fmt0 (SetLogLevel w0.lg WARN) "main.go".toList 10 "x".toList [] =
        .returned f' ∧
      (WARN ≤ Method.Info.level →
        f' = (SetLogLevel w0.lg WARN).push
          (specLine fmt0 .Info "main.go".toList 10 "x".toList []) ∧
        f'.logChan.buf =
          w0.lg.logChan.buf ++ [specLine fmt0 .Info "main.go".toList 10 "x".toList []] ∧
        f'.logChan.buf.length = w0.lg.logChan.buf.length + 1) ∧
      (¬ WARN ≤ Method.Info.level → f' = SetLogLevel w0.lg WARN)) ∧
    (∃ f', Method.Debug.call fmt0 (SetLogLevel w0.lg WARN) "main.go".toList 10 "x".toList [] =
        .returned f' ∧
      (WARN ≤ Method.Debug.level →
        f' = (SetLogLevel w0.lg WARN).push
          (specLine fmt0 .Debug "main.go".toList 10 "x".toList []) ∧
        f'.logChan.buf =
          w0.lg.logChan.buf ++ [specLine fmt0 .Debug "main.go".toList 10 "x".toList []] ∧
        f'.logChan.buf.length = w0.lg.logChan.buf.length + 1) ∧
      (¬ WARN ≤ Method.Debug.level → f' = SetLogLevel w0.lg WARN)) ∧
    ¬ WARN ≤ Method.Info.level ∧ ¬ WARN ≤ Method.Debug.level ∧
    WARN ≤ Method.Warn.level ∧ WARN ≤ Method.Error.level :=
  ⟨fun _ => by decide,
   level_filter fmt0 w0.lg WARN .Warn "main.go".toList 10 "x".toList [] (fun _ => by decide),
   level_filter fmt0 w0.lg WARN .Error "main.go".toList 10 "x".toList [] (fun _ => by decide),
   level_filter fmt0 w0.lg WARN .Info "main.go".toList 10 "x".toList []
     (fun h => absurd h (by decide)),
   level_filter fmt0 w0.lg WARN .Debug "main.go".toList 10 "x".toList []
     (fun h => absurd h (by decide)),
   by decide, by decide, by decide, by decide⟩

theorem dateSuffixes_append (xs ys : List Time) :
    dateSuffixes (xs ++ ys) = dateSuffixes xs ++ dateSuffixes ys := by
  induction xs with
  | nil => rfl
  | cons d xs ih => simp [dateSuffixes, ih]

theorem rotations_fileName (w : World) (rs : List Time) :
    (rotations w rs).lg.fileName = w.lg.fileName ++ dateSuffixes (rs.map today) := by
  induction rs generalizing w with
  | nil => simp [rotations, dateSuffixes]
  | cons r rs ih =>
    have h := ih (rotate w r)
    simp only [rotations, List.foldl_cons] at h ⊢
    rw [h]
    simp [rotate, dateSuffixes]

/-- The date suffix `.YYYY-MM-DD` has at least three characters and no slash. -/
theorem suffix_ok (t : Time) : '/' ∉ ('.' :: t.Format) ∧ 3 ≤ ('.' :: t.Format).length := by
  refine ⟨?_, ?_⟩
  · intro h
    rcases List.mem_cons.mp h with e | e
    · exact absurd e (by decide)
    · exact Format_noslash t e
  · have := Format_length t
    simp only [List.length_cons]
    omega

/-- C4: `NewLogger(dir, b)` at a clock reading `now` names the file `b.YYYY-MM-DD`
for the date of `now`, opens (creating it if absent, keeping its contents
otherwise) the file at the path `joinFilePath dir` of that name, and stores the
date of `now` without time of day as the rotation date. -/
theorem newLogger_file (fs : FS) (now : Time) (dir b : Str) (h : now.valid) :
    (NewLogger fs now dir b).lg.fileName = b ++ '.' :: now.Format ∧
    (NewLogger fs now dir b).lg.date = ⟨now.year, now.month, now.day, 0, 0, 0, 0⟩ ∧
    (NewLogger fs now dir b).lg.logFile =
      (fs.OpenFile (joinFilePath dir (b ++ '.' :: now.Format))).2 ∧
    (NewLogger fs now dir b).fs =
      (fs.OpenFile (joinFilePath dir (b ++ '.' :: now.Format))).1 ∧
    (NewLogger fs now dir b).lg.lger = some (NewLogger fs now dir b).lg.logFile ∧
    (fs.canOpen (joinFilePath dir (b ++ '.' :: now.Format)) = true →
      (NewLogger fs now dir b).lg.logFile =
        some ⟨joinFilePath dir (b ++ '.' :: now.Format), false⟩ ∧
      (NewLogger fs now dir b).fs.files (joinFilePath dir (b ++ '.' :: now.Format)) =
        some ((fs.files (joinFilePath dir (b ++ '.' :: now.Format))).getD [])) := by
  have ht : today now = now.date := today_valid now h
  have hf : (today now).Format = now.Format := by rw [ht]; rfl
  refine ⟨?_, ?_, ?_, ?_, ?_, ?_⟩
  · simp [NewLogger, initDailyLogger, hf]
  · simp [NewLogger, initDailyLogger, ht, Time.date]
  · simp [NewLogger, initDailyLogger, hf]
  · simp [NewLogger, initDailyLogger, hf]
  · simp [NewLogger, initDailyLogger]
  · intro hc
    simp [NewLogger, initDailyLogger, hf, FS.OpenFile, hc, FS.put]

theorem newLogger_file_witness :
    t0.valid ∧
    ((NewLogger fs0 t0 "logs".toList "app".toList).lg.fileName =
        "app".toList ++ '.' :: t0.Format ∧
      (NewLogger fs0 t0 "logs".toList "app".toList).lg.date =
        ⟨t0.year, t0.month, t0.day, 0, 0, 0, 0⟩ ∧
      (NewLogger fs0 t0 "logs".toList "app".toList).lg.logFile =
        (fs0.OpenFile (joinFilePath "logs".toList ("app".toList ++ '.' :: t0.Format))).2 ∧
      (NewLogger fs0 t0 "logs".toList "app".toList).fs =
        (fs0.OpenFile (joinFilePath "logs".toList ("app".toList ++ '.' :: t0.Format))).1 ∧
      (NewLogger fs0 t0 "logs".toList "app".toList).lg.lger =
        some (NewLogger fs0 t0 "logs".toList "app".toList).lg.logFile ∧
      (fs0.canOpen (joinFilePath "logs".toList ("app".toList ++ '.' :: t0.Format)) = true →
        (NewLogger fs0 t0 "logs".toList "app".toList).lg.logFile =
          some ⟨joinFilePath "logs".toList ("app".toList ++ '.' :: t0.Format), false⟩ ∧
        (NewLogger fs0 t0 "logs".toList "app".toList).fs.files
            (joinFilePath "logs".toList ("app".toList ++ '.' :: t0.Format)) =
          some ((fs0.files
            (joinFilePath "logs".toList ("app".toList ++ '.' :: t0.Format))).getD []))) ∧
    (NewLogger fs0 t0 "logs".toList "app".toList).lg.fileName = "app.2024-01-01".toList ∧
    (NewLogger fs0 t0 "logs".toList "app".toList).lg.logFile =
      some ⟨"logs/app.2024-01-01".toList, false⟩ :=
  ⟨by decide, newLogger_file fs0 t0 "logs".toList "app".toList (by decide), by decide,
   by decide⟩

/-- C5, as the code has it: each rotation appends the suffix `.YYYY-MM-DD` of the new
rotation date to the name it finds, and `NewLogger` has already appended one, so
after `N` rotations the file name is the base name followed by `N + 1` date
suffixes: the construction date's and one for each rotation. -/
theorem fileName_after_rotations (fs : FS) (now : Time) (dir b : Str) (rs : List Time) :
    (∀ (w : World) (r : Time),
      (rotate w r).lg.fileName = w.lg.fileName ++ '.' :: (rotate w r).lg.date.Format) ∧
    (rotations (NewLogger fs now dir b) rs).lg.fileName =
      b ++ dateSuffixes (today now :: rs.map today) ∧
    (today now :: rs.map today).length = rs.length + 1 := by
  refine ⟨fun w r => rfl, ?_, by simp⟩
  rw [rotations_fileName]
  simp [NewLogger, initDailyLogger, dateSuffixes]

/-- C5 as stated fails for `N = 0`: the name of a logger just built for the base name
`app` is `app.2024-01-01`, not `app` followed by zero date suffixes. -/
theorem fileName_zero_rotations_counterexample :
    (rotations (NewLogger fs0 t0 "logs".toList "app".toList) []).lg.fileName =
      "app.2024-01-01".toList ∧
    ¬ ∃ ds : List Time, ds.length = 0 ∧
      (rotations (NewLogger fs0 t0 "logs".toList "app".toList) []).lg.fileName =
        "app".toList ++ dateSuffixes ds := by
  refine ⟨by decide, ?_⟩
  rintro ⟨ds, hlen, h⟩
  rw [List.length_eq_zero] at hlen
  rw [hlen] at h
  revert h
  decide

theorem After_irrefl (t : Time) : ¬ t.After t := by
  unfold Time.After; omega

theorem After_asymm (t u : Time) (h : t.After u) : ¬ u.After t := by
  unfold Time.After at *; omega

theorem checkFile_rotate (w : World) (now1 now2 : Time) (h1 : now1.valid)
    (hp : now1.date.After w.lg.date) : checkFile w now1 now2 = rotate w now2 := by
  simp [checkFile, isNeedRotate, today_valid now1 h1, hp]

/-- What one rotation check does, for clock readings on one date. -/
theorem checkFile_eq (w : World) (now1 now2 : Time) (h1 : now1.valid)
    (h2 : now2.valid) (hsame : now2.date = now1.date) :
    (¬ now1.date.After w.lg.date → checkFile w now1 now2 = w) ∧
    (now1.date.After w.lg.date →
      (checkFile w now1 now2).lg.date = now1.date ∧
      (checkFile w now1 now2).lg.fileName = w.lg.fileName ++ '.' :: now1.Format ∧
      (checkFile w now1 now2).lg.logFile =
        (w.fs.Create (joinFilePath w.lg.fileDir (w.lg.fileName ++ '.' :: now1.Format))).2 ∧
      (checkFile w now1 now2).fs =
        (w.fs.Create (joinFilePath w.lg.fileDir (w.lg.fileName ++ '.' :: now1.Format))).1 ∧
      (checkFile w now1 now2).lg.lger = some (checkFile w now1 now2).lg.logFile ∧
      joinFilePath w.lg.fileDir (w.lg.fileName ++ '.' :: now1.Format) ≠
        joinFilePath w.lg.fileDir w.lg.fileName) := by
  have e1 : today now1 = now1.date := today_valid now1 h1
  have e2 : today now2 = now1.date := by rw [today_valid now2 h2, hsame]
  have hf : now1.date.Format = now1.Format := rfl
  refine ⟨?_, ?_⟩
  · intro hn
    simp [checkFile, isNeedRotate, e1, hn]
  · intro hp
    have hc : checkFile w now1 now2 = rotate w now2 := by
      simp [checkFile, isNeedRotate, e1, hp]
    rw [hc]
    refine ⟨?_, ?_, ?_, ?_, ?_, ?_⟩
    · simp [rotate, e2]
    · simp [rotate, e2, hf]
    · simp [rotate, e2, hf]
    · simp [rotate, e2, hf]
    · simp [rotate]
    · exact Join_append_ne _ _ _ (suffix_ok now1).1 (suffix_ok now1).2

/-- C6: one rotation check whose clock readings fall on a date not strictly later
than the stored rotation date (the same date, or an earlier one) leaves the whole
state (stored date, file name, open file, file system) unchanged; when the date
is strictly later, the stored date becomes that date, the name gets its suffix,
and the logger switches to the file created at the path of the new name, which
is not the path of the old name. -/
theorem checkFile_forward_only (w : World) (now1 now2 : Time) (h1 : now1.valid)
    (h2 : now2.valid) (hsame : now2.date = now1.date) :
    (¬ now1.date.After w.lg.date → checkFile w now1 now2 = w) ∧
    (now1.date = w.lg.date ∨ w.lg.date.After now1.date → checkFile w now1 now2 = w) ∧
    (now1.date.After w.lg.date →
      (checkFile w now1 now2).lg.date = now1.date ∧
      (checkFile w now1 now2).lg.fileName = w.lg.fileName ++ '.' :: now1.Format ∧
      (checkFile w now1 now2).lg.logFile =
        (w.fs.Create (joinFilePath w.lg.fileDir (w.lg.fileName ++ '.' :: now1.Format))).2 ∧
      (checkFile w now1 now2).fs =
        (w.fs.Create (joinFilePath w.lg.fileDir (w.lg.fileName ++ '.' :: now1.Format))).1 ∧
      (checkFile w now1 now2).lg.lger = some (checkFile w now1 now2).lg.logFile ∧
      joinFilePath w.lg.fileDir (w.lg.fileName ++ '.' :: now1.Format) ≠
        joinFilePath w.lg.fileDir w.lg.fileName) := by
  obtain ⟨hno, hyes⟩ := checkFile_eq w now1 now2 h1 h2 hsame
  refine ⟨hno, ?_, hyes⟩
  rintro (e | e)
  · exact hno (by rw [e]; exact After_irrefl _)
  · exact hno (After_asymm _ _ e)

/-- The logger built on 2024-01-01 rotates at a check on 2024-01-02 and does not at a
check on 2024-01-01. -/
theorem checkFile_forward_only_witness :
    (t1.valid ∧ t1.valid ∧ t1.date = t1.date) ∧
    ((¬ t1.date.After w0.lg.date → checkFile w0 t1 t1 = w0) ∧
    (t1.date = w0.lg.date ∨ w0.lg.date.After t1.date → checkFile w0 t1 t1 = w0) ∧
    (t1.date.After w0.lg.date →
      (checkFile w0 t1 t1).lg.date = t1.date ∧
      (checkFile w0 t1 t1).lg.fileName = w0.lg.fileName ++ '.' :: t1.Format ∧
      (checkFile w0 t1 t1).lg.logFile =
        (w0.fs.Create (joinFilePath w0.lg.fileDir (w0.lg.fileName ++ '.' :: t1.Format))).2 ∧
      (checkFile w0 t1 t1).fs =
        (w0.fs.Create (joinFilePath w0.lg.fileDir (w0.lg.fileName ++ '.' :: t1.Format))).1 ∧
      (checkFile w0 t1 t1).lg.lger = some (checkFile w0 t1 t1).lg.logFile ∧
      joinFilePath w0.lg.fileDir (w0.lg.fileName ++ '.' :: t1.Format) ≠
        joinFilePath w0.lg.fileDir w0.lg.fileName)) ∧
    t1.date.After w0.lg.date ∧
    (checkFile w0 t1 t1).lg.fileName = "app.2024-01-01.2024-01-02".toList ∧
    ¬ t0.date.After w0.lg.date :=
  ⟨by decide, checkFile_forward_only w0 t1 t1 (by decide) (by decide) rfl, by decide,
   by decide, by decide⟩

/-! ## The writer -/

theorem step_call (env : Fmt) (w w1 : World) (m : Method) (file : Str) (line : Int)
    (format : Str) (v : List Operand) (hch : w.lg.logChan.closed = false)
    (h : step env w (.call m file line format v) = .returned w1) :
    w1.fs = w.fs ∧ w1.lg.lger = w.lg.lger ∧ w1.lg.logLevel = w.lg.logLevel ∧
    w1.lg.logChan.closed = false ∧
    w1.lg.logChan.buf = w.lg.logChan.buf ++
      (if w.lg.logLevel ≤ m.level then [specLine env m file line format v] else []) := by
  simp only [step, call_eq] at h
  by_cases hl : w.lg.logLevel ≤ m.level
  · simp only [hl, if_true, enqueue, Chan.send, hch] at h
    by_cases hr : w.lg.logChan.buf.length < w.lg.logChan.cap
    · simp [hr] at h
      subst h
      simp [hl, hch]
    · simp [hr] at h
  · simp only [hl, if_false] at h
    simp at h
    subst h
    simp [hl, hch]

theorem step_write (env : Fmt) (w w1 : World) (now : Time) (hch : w.lg.logChan.closed = false)
    (h : step env w (.write now) = .returned w1) :
    ∃ s rest out, w.lg.logChan.buf = s :: rest ∧ w.lg.lger = some out ∧
      w1.fs = w.fs.Write out (logLine now s) ∧ w1.lg.lger = w.lg.lger ∧
      w1.lg.logLevel = w.lg.logLevel ∧ w1.lg.logChan.closed = false ∧
      w1.lg.logChan.buf = rest := by
  simp only [step, writeLog, Chan.recv] at h
  cases hb : w.lg.logChan.buf with
  | nil => simp [hb, hch] at h
  | cons s rest =>
    simp only [hb, outPut] at h
    cases hl : w.lg.lger with
    | none => simp [hl] at h
    | some out =>
      simp [hl] at h
      subst h
      exact ⟨s, rest, out, rfl, rfl, rfl, by simp [hl], rfl, by simp [hch], rfl⟩

/-- Calls and writer iterations touch no file but the one the logger writes to. -/
theorem run_frame (env : Fmt) (evs : List Ev) : ∀ (w w' : World) (q : Str),
    (∀ file, w.lg.lger = some (some file) → q ≠ file.path) →
    run env w evs = .returned w' → w'.fs.files q = w.fs.files q := by
  induction evs with
  | nil =>
    intro w w' q _ h
    simp [run] at h
    rw [h]
  | cons e es ih =>
    intro w w' q hq h
    simp only [run] at h
    cases hs : step env w e with
    | blocked => simp [hs] at h
    | panicked => simp [hs] at h
    | returned w1 =>
      simp only [hs] at h
      cases e with
      | call m file line format v =>
        have h1 : w1.fs = w.fs ∧ w1.lg.lger = w.lg.lger := by
          simp only [step] at hs
          cases hc : m.call env w.lg file line format v with
          | blocked => simp [hc] at hs
          | panicked => simp [hc] at hs
          | returned f =>
            simp [hc] at hs
            subst hs
            refine ⟨rfl, ?_⟩
            rw [call_eq] at hc
            split_ifs at hc
            · simp only [enqueue] at hc
              cases hsd : w.lg.logChan.send (specLine env m file line format v) with
              | blocked => simp [hsd] at hc
              | panicked => simp [hsd] at hc
              | returned c => simp [hsd] at hc; subst hc; rfl
            · simp at hc; subst hc; rfl
        rw [ih w1 w' q (by rw [h1.2]; exact hq) h, h1.1]
      | write now =>
        simp only [step, writeLog] at hs
        cases hr : w.lg.logChan.recv with
        | blocked => simp [hr] at hs
        | panicked => simp [hr] at hs
        | returned p =>
          obtain ⟨str, c⟩ := p
          simp only [hr, outPut] at hs
          cases hl : w.lg.lger with
          | none => simp [hl] at hs
          | some out =>
            simp [hl] at hs
            subst hs
            rw [ih _ w' q (by simpa [hl] using hq) h]
            cases out with
            | none => rfl
            | some file =>
              have hne : q ≠ file.path := hq file (by rw [hl])
              simp only [FS.Write]
              split_ifs
              · rfl
              · simp [FS.put, hne]

/-- With an open channel and an open output file, a run of logging calls and
writer iterations leaves in the file, after what was there, the first `k` of the
queued and accepted messages in order (`k` being the number of writer
iterations), and in the queue the rest, in order. -/
theorem run_spec (env : Fmt) (evs : List Ev) : ∀ (w w' : World) (file : File),
    w.lg.lger = some (some file) → file.closed = false → w.lg.logChan.closed = false →
    run env w evs = .returned w' →
    (writes evs).length ≤ (w.lg.logChan.buf ++ accepted env w.lg.logLevel evs).length ∧
    (w'.fs.files file.path).getD [] = (w.fs.files file.path).getD [] ++
      logLines (writes evs) (w.lg.logChan.buf ++ accepted env w.lg.logLevel evs) ∧
    w'.lg.logChan.buf =
      (w.lg.logChan.buf ++ accepted env w.lg.logLevel evs).drop (writes evs).length := by
  induction evs with
  | nil =>
    intro w w' file _ _ _ h
    simp [run] at h
    subst h
    simp [writes, accepted, logLines]
  | cons e es ih =>
    intro w w' file hf ho hch h
    simp only [run] at h
    cases hs : step env w e with
    | blocked => simp [hs] at h
    | panicked => simp [hs] at h
    | returned w1 =>
      simp only [hs] at h
      cases e with
      | call m fl line format v =>
        obtain ⟨e1, e2, e3, e4, e5⟩ := step_call env w w1 m fl line format v hch hs
        obtain ⟨i1, i2, i3⟩ := ih w1 w' file (by rw [e2]; exact hf) ho e4 h
        rw [e5, e3, e1] at *
        by_cases hl : w.lg.logLevel ≤ m.level
        · simp only [hl, if_true, List.append_assoc, List.singleton_append] at i1 i2 i3
          simp only [writes, accepted, hl, if_true]
          exact ⟨i1, i2, i3⟩
        · simp only [hl, if_false, List.append_nil] at i1 i2 i3
          simp only [writes, accepted, hl, if_false]
          exact ⟨i1, i2, i3⟩
      | write now =>
        obtain ⟨s, rest, out, b1, b2, b3, b4, b5, b6, b7⟩ := step_write env w w1 now hch hs
        have hout : out = some file := by rw [hf] at b2; simpa using b2.symm
        obtain ⟨i1, i2, i3⟩ := ih w1 w' file (by rw [b4]; exact hf) ho b6 h
        rw [b7, b5] at i1 i2 i3
        rw [b3, hout] at i2
        simp only [writes, accepted, b1, List.cons_append, List.length_cons, List.drop_succ_cons,
          logLines]
        refine ⟨by omega, ?_, i3⟩
        rw [i2]
        simp [FS.Write, ho, FS.put]

/-- While messages are queued the writer is not stuck: as many iterations as there
are queued messages all return. -/
theorem run_writes (env : Fmt) (ts : List Time) : ∀ (w : World) (out : Option File),
    w.lg.lger = some out → ts.length ≤ w.lg.logChan.buf.length →
    ∃ w', run env w (ts.map Ev.write) = .returned w' := by
  induction ts with
  | nil => intro w _ _ _; exact ⟨w, rfl⟩
  | cons t ts ih =>
    intro w out hl hlen
    cases hb : w.lg.logChan.buf with
    | nil => rw [hb] at hlen; simp at hlen
    | cons s rest =>
      rw [hb] at hlen
      simp only [List.length_cons] at hlen
      have hs : step env w (.write t) = .returned
          { fs := w.fs.Write out (logLine t s),
            lg := { w.lg with logChan := { w.lg.logChan with buf := rest } } } := by
        simp [step, writeLog, Chan.recv, hb, outPut, hl]
      obtain ⟨w', hw'⟩ := ih (World.mk (w.fs.Write out (logLine t s))
            { w.lg with logChan := { w.lg.logChan with buf := rest } }) out hl
            (by simp; omega)
      exact ⟨w', by simp only [List.map_cons, run, hs, hw']⟩

/-- C7: on a logger with an open channel and an open output file, and with no
rotation and no `Close`, whatever the interleaving of a producer's logging calls
and the writer's iterations: the writer iterations append to the output file
exactly the first `k` of the queued and accepted messages, each once and in
submission order (`k` the number of iterations), the remaining ones wait in the
queue in order, and when as many iterations have run as there are messages the
file holds all of them and the queue is empty.  The writer is never stuck while
messages are queued. -/
theorem writer_fifo (env : Fmt) (w : World) (file : File)
    (hfile : w.lg.lger = some (some file)) (hopen : file.closed = false)
    (hch : w.lg.logChan.closed = false) :
    (∀ evs w', run env w evs = .returned w' →
      (writes evs).length ≤ (w.lg.logChan.buf ++ accepted env w.lg.logLevel evs).length ∧
      (w'.fs.files file.path).getD [] = (w.fs.files file.path).getD [] ++
        logLines (writes evs) (w.lg.logChan.buf ++ accepted env w.lg.logLevel evs) ∧
      w'.lg.logChan.buf =
        (w.lg.logChan.buf ++ accepted env w.lg.logLevel evs).drop (writes evs).length ∧
      ((writes evs).length = (w.lg.logChan.buf ++ accepted env w.lg.logLevel evs).length →
        w'.lg.logChan.buf = []) ∧
      (∀ q, q ≠ file.path → w'.fs.files q = w.fs.files q)) ∧
    (∀ ts : List Time, ts.length ≤ w.lg.logChan.buf.length →
      ∃ w', run env w (ts.map Ev.write) = .returned w') := by
  refine ⟨?_, ?_⟩
  · intro evs w' h
    obtain ⟨h1, h2, h3⟩ := run_spec env evs w w' file hfile hopen hch h
    refine ⟨h1, h2, h3, ?_, ?_⟩
    · intro hk
      rw [h3, hk, List.drop_length]
    · intro q hq
      refine run_frame env evs w w' q ?_ h
      intro file' hf'
      rw [hfile] at hf'
      simp at hf'
      rw [← hf']
      exact hq
  · intro ts hts
    exact run_writes env ts w (some file) hfile hts

theorem writer_fifo_witness :
    (w0.lg.lger = some (some ⟨"logs/app.2024-01-01".toList, false⟩) ∧
      (File.mk "logs/app.2024-01-01".toList false).closed = false ∧
      w0.lg.logChan.closed = false) ∧
    ((∀ evs w', run fmt0 w0 evs = .returned w' →
      (writes evs).length ≤ (w0.lg.logChan.buf ++ accepted fmt0 w0.lg.logLevel evs).length ∧
      (w'.fs.files (File.mk "logs/app.2024-01-01".toList false).path).getD [] =
        (w0.fs.files (File.mk "logs/app.2024-01-01".toList false).path).getD [] ++
        logLines (writes evs) (w0.lg.logChan.buf ++ accepted fmt0 w0.lg.logLevel evs) ∧
      w'.lg.logChan.buf =
        (w0.lg.logChan.buf ++ accepted fmt0 w0.lg.logLevel evs).drop (writes evs).length ∧
      ((writes evs).length = (w0.lg.logChan.buf ++ accepted fmt0 w0.lg.logLevel evs).length →
        w'.lg.logChan.buf = []) ∧
      (∀ q, q ≠ (File.mk "logs/app.2024-01-01".toList false).path →
        w'.fs.files q = w0.fs.files q)) ∧
    (∀ ts : List Time, ts.length ≤ w0.lg.logChan.buf.length →
      ∃ w', run fmt0 w0 (ts.map Ev.write) = .returned w')) ∧
    (run fmt0 w0 [.call .Error "main.go".toList 10 "a".toList [],
        .call .Error "main.go".toList 11 "b %d".toList [.int 2],
        .write t0, .write t1]).result.map (fun w => w.fs.files "logs/app.2024-01-01".toList) =
      some (some ("2024/01/01 10:30:00.000000 [main.go:10][ERROR] a\n".toList ++
        "2024/01/02 00:03:00.000000 [main.go:11][ERROR] b 2\n".toList)) :=
  ⟨by decide,
   writer_fifo fmt0 w0 ⟨"logs/app.2024-01-01".toList, false⟩ (by decide) rfl (by decide),
   by decide⟩

/-- C8 as stated fails on the code: with the minimum level `DEBUG` (1), `Info` (level 0)
is below the minimum, so after `Info("x")` and `Debug("y")` the queue holds the
`Debug` line only, one writer iteration writes it, a second one finds the queue
empty, and the file holds no `Info` line.  The templates `x` and `y` hold no
directive, so the open part of package fmt plays no role. -/
theorem info_at_debug_counterexample :
    (run fmt0 { w0 with lg := SetLogLevel w0.lg DEBUG }
        [.call .Info "main.go".toList 10 "x".toList [],
         .call .Debug "main.go".toList 11 "y".toList []]).result.map
        (fun w => w.lg.logChan.buf) = some ["[main.go:11][DEBUG] y".toList] ∧
    (run fmt0 { w0 with lg := SetLogLevel w0.lg DEBUG }
        [.call .Info "main.go".toList 10 "x".toList [],
         .call .Debug "main.go".toList 11 "y".toList [],
         .write t0]).result.map (fun w => w.fs.files "logs/app.2024-01-01".toList) =
      some (some "2024/01/01 10:30:00.000000 [main.go:11][DEBUG] y\n".toList) ∧
    (run fmt0 { w0 with lg := SetLogLevel w0.lg DEBUG }
        [.call .Info "main.go".toList 10 "x".toList [],
         .call .Debug "main.go".toList 11 "y".toList [],
         .write t0, .write t0]).result.isSome = false ∧
    ¬ ("[INFO] x".toList <:+: "2024/01/01 10:30:00.000000 [main.go:11][DEBUG] y\n".toList) := by
  refine ⟨by decide, by decide, by decide, by decide⟩

/-- C8, as the code has it: on a logger with an open output file and an empty queue,
after `SetLogLevel(DEBUG)` the calls `Info("x")` and `Debug("y")` leave the
`Debug` line only, which one writer iteration appends to the file; after
`SetLogLevel(INFO)` both lines are queued and two writer iterations append the
`Info` line and then the `Debug` line. -/
theorem info_then_debug (env : Fmt) (w : World) (file : File) (fl1 fl2 : Str) (l1 l2 : Int)
    (ta tb : Time) (hfile : w.lg.lger = some (some file)) (hopen : file.closed = false)
    (hch : w.lg.logChan.closed = false) (hempty : w.lg.logChan.buf = [])
    (hcap : 2 ≤ w.lg.logChan.cap) :
    (∃ w', run env { w with lg := SetLogLevel w.lg DEBUG }
        [.call .Info fl1 l1 "x".toList [], .call .Debug fl2 l2 "y".toList [], .write ta] =
          .returned w' ∧
      w'.lg.logChan.buf = [] ∧
      (w'.fs.files file.path).getD [] = (w.fs.files file.path).getD [] ++
        logLine ta (specLine env .Debug fl2 l2 "y".toList [])) ∧
    (∃ w', run env { w with lg := SetLogLevel w.lg INFO }
        [.call .Info fl1 l1 "x".toList [], .call .Debug fl2 l2 "y".toList [], .write ta,
         .write tb] = .returned w' ∧
      w'.lg.logChan.buf = [] ∧
      (w'.fs.files file.path).getD [] = (w.fs.files file.path).getD [] ++
        (logLine ta (specLine env .Info fl1 l1 "x".toList []) ++
         logLine tb (specLine env .Debug fl2 l2 "y".toList []))) := by
  have c1 : 0 < w.lg.logChan.cap := by omega
  have c2 : 1 < w.lg.logChan.cap := by omega
  refine ⟨?_, ?_⟩
  · have hr : ∃ w', run env { w with lg := SetLogLevel w.lg DEBUG }
        [.call .Info fl1 l1 "x".toList [], .call .Debug fl2 l2 "y".toList [], .write ta] =
          .returned w' := by
      simp [run, step, call_eq, SetLogLevel, Method.level, INFO, DEBUG, enqueue, Chan.send,
        hch, hempty, writeLog, Chan.recv, outPut, hfile, c1]
    obtain ⟨w', hw'⟩ := hr
    obtain ⟨_, h2, h3⟩ := run_spec env _ { w with lg := SetLogLevel w.lg DEBUG } w' file
      hfile hopen hch hw'
    refine ⟨w', hw', ?_, ?_⟩
    · simpa [SetLogLevel, hempty, accepted, writes, Method.level, INFO, DEBUG] using h3
    · simpa [SetLogLevel, hempty, accepted, writes, Method.level, INFO, DEBUG, logLines]
        using h2
  · have hr : ∃ w', run env { w with lg := SetLogLevel w.lg INFO }
        [.call .Info fl1 l1 "x".toList [], .call .Debug fl2 l2 "y".toList [], .write ta,
         .write tb] = .returned w' := by
      simp [run, step, call_eq, SetLogLevel, Method.level, INFO, DEBUG, enqueue, Chan.send,
        hch, hempty, writeLog, Chan.recv, outPut, hfile, c1, c2]
    obtain ⟨w', hw'⟩ := hr
    obtain ⟨_, h2, h3⟩ := run_spec env _ { w with lg := SetLogLevel w.lg INFO } w' file
      hfile hopen hch hw'
    refine ⟨w', hw', ?_, ?_⟩
    · simpa [SetLogLevel, hempty, accepted, writes, Method.level, INFO, DEBUG] using h3
    · simpa [SetLogLevel, hempty, accepted, writes, Method.level, INFO, DEBUG, logLines]
        using h2

theorem info_then_debug_witness :
    (w0.lg.lger = some (some ⟨"logs/app.2024-01-01".toList, false⟩) ∧
      (File.mk "logs/app.2024-01-01".toList false).closed = false ∧
      w0.lg.logChan.closed = false ∧ w0.lg.logChan.buf = [] ∧ 2 ≤ w0.lg.logChan.cap) ∧
    ((∃ w', run fmt0 { w0 with lg := SetLogLevel w0.lg DEBUG }
        [.call .Info "main.go".toList 10 "x".toList [],
         .call .Debug "main.go".toList 11 "y".toList [], .write t0] = .returned w' ∧
      w'.lg.logChan.buf = [] ∧
      (w'.fs.files (File.mk "logs/app.2024-01-01".toList false).path).getD [] =
        (w0.fs.files (File.mk "logs/app.2024-01-01".toList false).path).getD [] ++
        logLine t0 (specLine fmt0 .Debug "main.go".toList 11 "y".toList [])) ∧
    (∃ w', run fmt0 { w0 with lg := SetLogLevel w0.lg INFO }
        [.call .Info "main.go".toList 10 "x".toList [],
         .call .Debug "main.go".toList 11 "y".toList [], .write t0, .write t1] =
          .returned w' ∧
      w'.lg.logChan.buf = [] ∧
      (w'.fs.files (File.mk "logs/app.2024-01-01".toList false).path).getD [] =
        (w0.fs.files (File.mk "logs/app.2024-01-01".toList false).path).getD [] ++
        (logLine t0 (specLine fmt0 .Info "main.go".toList 10 "x".toList []) ++
         logLine t1 (specLine fmt0 .Debug "main.go".toList 11 "y".toList [])))) ∧
    (run fmt0 { w0 with lg := SetLogLevel w0.lg INFO }
        [.call .Info "main.go".toList 10 "x".toList [],
         .call .Debug "main.go".toList 11 "y".toList [], .write t0, .write t1]).result.map
        (fun w => w.fs.files "logs/app.2024-01-01".toList) =
      some (some ("2024/01/01 10:30:00.000000 [main.go:10][INFO] x\n".toList ++
        "2024/01/02 00:03:00.000000 [main.go:11][DEBUG] y\n".toList)) :=
  ⟨by decide,
   info_then_debug fmt0 w0 ⟨"logs/app.2024-01-01".toList, false⟩ "main.go".toList
     "main.go".toList 10 11 t0 t1 (by decide) rfl (by decide) (by decide) (by decide),
   by decide⟩

/-! ## Rotation and the open file -/

/-- C9: on a logger that writes to the file opened under its current name, one
rotation check on a date strictly later than the stored one makes the logger
write to the file created at the path of the old name extended by `.YYYY-MM-DD`
of the new date; that name and path differ from the old ones; the creation, and
every line written afterwards, leave the contents of the previously open file as
they were; and when the system grants the creation, the lines written afterwards
are exactly the contents of the new file. -/
theorem rotation_new_file (env : Fmt) (w : World) (now1 now2 : Time) (h1 : now1.valid)
    (h2 : now2.valid) (hsame : now2.date = now1.date)
    (hlater : now1.date.After w.lg.date) (hnamed : Named w) :
    ∃ newPath, newPath = joinFilePath w.lg.fileDir (w.lg.fileName ++ '.' :: now1.Format) ∧
      (checkFile w now1 now2).lg.lger = some (w.fs.Create newPath).2 ∧
      (checkFile w now1 now2).lg.fileName = w.lg.fileName ++ '.' :: now1.Format ∧
      (∃ pre, newPath = pre ++ '.' :: now1.Format) ∧
      (checkFile w now1 now2).lg.fileName ≠ w.lg.fileName ∧
      (∀ old, w.lg.lger = some (some old) →
        newPath ≠ old.path ∧
        (checkFile w now1 now2).fs.files old.path = w.fs.files old.path) ∧
      (∀ evs w', run env (checkFile w now1 now2) evs = .returned w' →
        (∀ old, w.lg.lger = some (some old) → w'.fs.files old.path = w.fs.files old.path) ∧
        (w.fs.canOpen newPath = true → w.lg.logChan.closed = false →
          (checkFile w now1 now2).lg.lger = some (some ⟨newPath, false⟩) ∧
          (w'.fs.files newPath).getD [] =
            logLines (writes evs) (w.lg.logChan.buf ++ accepted env w.lg.logLevel evs))) := by
  obtain ⟨_, c2, c3, c4, c5, c6⟩ :=
    (checkFile_eq w now1 now2 h1 h2 hsame).2 hlater
  have hrot : checkFile w now1 now2 = rotate w now2 := checkFile_rotate w now1 now2 h1 hlater
  have hold : ∀ old, w.lg.lger = some (some old) →
      old.path = joinFilePath w.lg.fileDir w.lg.fileName := by
    intro old ho
    rw [hnamed.1] at ho
    have := hnamed.2 old (by simpa using ho)
    rw [this]
  have hfs0 : ∀ old, w.lg.lger = some (some old) →
      (checkFile w now1 now2).fs.files old.path = w.fs.files old.path := by
    intro old ho
    have hne : old.path ≠ joinFilePath w.lg.fileDir (w.lg.fileName ++ '.' :: now1.Format) := by
      rw [hold old ho]; exact fun e => c6 e.symm
    rw [c4]
    unfold FS.Create
    split_ifs
    · simp [FS.put, hne]
    · rfl
  refine ⟨_, rfl, by rw [c5, c3], c2, ?_, ?_, ?_, ?_⟩
  · exact Join_append_suffix _ _ _ (suffix_ok now1).1 (suffix_ok now1).2
  · rw [c2]
    intro e
    have := congrArg List.length e
    simp at this
  · intro old ho
    refine ⟨?_, hfs0 old ho⟩
    rw [hold old ho]; exact c6
  · intro evs w' hrun
    refine ⟨?_, ?_⟩
    · intro old ho
      rw [← hfs0 old ho]
      refine run_frame env evs _ w' old.path ?_ hrun
      intro file hf
      rw [c5, c3] at hf
      unfold FS.Create at hf
      split_ifs at hf
      · simp at hf
        rw [← hf, hold old ho]
        exact fun e => c6 e.symm
      · simp at hf
    · intro hcan hch
      have hfile : (checkFile w now1 now2).lg.lger = some (some
          ⟨joinFilePath w.lg.fileDir (w.lg.fileName ++ '.' :: now1.Format), false⟩) := by
        rw [c5, c3]; simp [FS.Create, hcan]
      have hch' : (checkFile w now1 now2).lg.logChan.closed = false := by
        rw [hrot]; exact hch
      obtain ⟨_, r2, _⟩ := run_spec env evs _ w' _ hfile rfl hch' hrun
      simp only at r2
      refine ⟨hfile, ?_⟩
      rw [r2, c4, hrot]
      simp [FS.Create, hcan, FS.put, rotate]

theorem rotation_new_file_witness :
    (t1.valid ∧ t1.valid ∧ t1.date = t1.date ∧ t1.date.After w0.lg.date ∧ Named w0) ∧
    (∃ newPath, newPath = joinFilePath w0.lg.fileDir (w0.lg.fileName ++ '.' :: t1.Format) ∧
      (checkFile w0 t1 t1).lg.lger = some (w0.fs.Create newPath).2 ∧
      (checkFile w0 t1 t1).lg.fileName = w0.lg.fileName ++ '.' :: t1.Format ∧
      (∃ pre, newPath = pre ++ '.' :: t1.Format) ∧
      (checkFile w0 t1 t1).lg.fileName ≠ w0.lg.fileName ∧
      (∀ old, w0.lg.lger = some (some old) →
        newPath ≠ old.path ∧
        (checkFile w0 t1 t1).fs.files old.path = w0.fs.files old.path) ∧
      (∀ evs w', run fmt0 (checkFile w0 t1 t1) evs = .returned w' →
        (∀ old, w0.lg.lger = some (some old) → w'.fs.files old.path = w0.fs.files old.path) ∧
        (w0.fs.canOpen newPath = true → w0.lg.logChan.closed = false →
          (checkFile w0 t1 t1).lg.lger = some (some ⟨newPath, false⟩) ∧
          (w'.fs.files newPath).getD [] =
            logLines (writes evs) (w0.lg.logChan.buf ++ accepted fmt0 w0.lg.logLevel evs)))) ∧
    (checkFile w0 t1 t1).lg.lger =
      some (some ⟨"logs/app.2024-01-01.2024-01-02".toList, false⟩) ∧
    (run fmt0 (checkFile (World.mk (w0.fs.put "logs/app.2024-01-01".toList "old\n".toList) w0.lg)
        t1 t1) [.call .Error "main.go".toList 12 "late".toList [], .write t1]).result.map
        (fun w => (w.fs.files "logs/app.2024-01-01".toList,
          w.fs.files "logs/app.2024-01-01.2024-01-02".toList)) =
      some (some "old\n".toList,
        some "2024/01/02 00:03:00.000000 [main.go:12][ERROR] late\n".toList) :=
  ⟨by decide,
   rotation_new_file fmt0 w0 t1 t1 (by decide) (by decide) rfl (by decide) (by decide),
   by decide, by decide⟩

/-! ## The invariant of the open file -/

theorem call_frame (env : Fmt) (m : Method) (g f : logger) (file : Str) (line : Int)
    (format : Str) (v : List Operand) (h : m.call env g file line format v = .returned f) :
    ∃ c, f = { g with logChan := c } := by
  rw [call_eq] at h
  split_ifs at h
  · simp only [enqueue] at h
    cases hs : g.logChan.send (specLine env m file line format v) with
    | blocked => simp [hs] at h
    | panicked => simp [hs] at h
    | returned c => simp [hs] at h; exact ⟨c, h.symm⟩
  · simp at h; exact ⟨g.logChan, by rw [← h]⟩

theorem writeLog_frame (w w' : World) (now : Time) (h : writeLog w now = .returned w') :
    ∃ c, w'.lg = { w.lg with logChan := c } := by
  simp only [writeLog] at h
  cases hr : w.lg.logChan.recv with
  | blocked => simp [hr] at h
  | panicked => simp [hr] at h
  | returned p =>
    obtain ⟨str, c⟩ := p
    simp only [hr, outPut] at h
    cases hl : w.lg.lger with
    | none => simp [hl] at h
    | some out =>
      simp [hl] at h
      exact ⟨c, by rw [← h]; simp [hl]⟩

/-- In every reachable state the logger writes to the file opened under its
current name, and that name ends with the suffix of the stored date. -/
theorem reachable_named (env : Fmt) (w : World) (h : Reachable env w) :
    Named w ∧ ∃ base, w.lg.fileName = base ++ '.' :: w.lg.date.Format := by
  induction h with
  | init fs now dir name =>
    refine ⟨⟨rfl, ?_⟩, name, rfl⟩
    intro old ho
    simp only [NewLogger, initDailyLogger, FS.OpenFile] at ho
    split_ifs at ho
    · simp at ho; rw [← ho]; rfl
    · simp at ho
  | call w m file line format v f _ hc ih =>
    obtain ⟨c, hf⟩ := call_frame env m w.lg f file line format v hc
    subst hf
    exact ih
  | setLevel w level _ ih => exact ih
  | write w now w' _ hw ih =>
    obtain ⟨c, hf⟩ := writeLog_frame w w' now hw
    obtain ⟨⟨n1, n2⟩, base, hb⟩ := ih
    refine ⟨⟨?_, ?_⟩, base, ?_⟩
    · rw [hf]; exact n1
    · rw [hf]; exact n2
    · rw [hf]; exact hb
  | check w now1 now2 _ ih =>
    unfold checkFile
    split_ifs
    · refine ⟨⟨rfl, ?_⟩, w.lg.fileName, rfl⟩
      intro old ho
      simp only [rotate, FS.Create] at ho
      split_ifs at ho
      · simp at ho; rw [← ho]; rfl
      · simp at ho
    · exact ih

/-- C10: in every state reachable from `NewLogger` by logging calls, `SetLogLevel`
calls, writer iterations and rotation checks, the file name ends with `.` and the
stored rotation date as `YYYY-MM-DD`, and the file the logger writes to, when
there is one, is open, is the one at the path of that name, and its path ends
with the same suffix. -/
theorem open_file_named_by_date (env : Fmt) (w : World) (h : Reachable env w) :
    (∃ pre, w.lg.fileName = pre ++ '.' :: w.lg.date.Format) ∧
    (∀ file, w.lg.lger = some (some file) →
      file.closed = false ∧
      file.path = joinFilePath w.lg.fileDir w.lg.fileName ∧
      ∃ pre, file.path = pre ++ '.' :: w.lg.date.Format) := by
  obtain ⟨⟨n1, n2⟩, base, hb⟩ := reachable_named env w h
  refine ⟨⟨base, hb⟩, ?_⟩
  intro file hf
  rw [n1] at hf
  have := n2 file (by simpa using hf)
  subst this
  refine ⟨rfl, rfl, ?_⟩
  simp only
  rw [hb]
  exact Join_append_suffix _ _ _ (suffix_ok w.lg.date).1 (suffix_ok w.lg.date).2

theorem open_file_named_by_date_witness :
    Reachable fmt0 (checkFile w0 t1 t1) ∧
    ((∃ pre, (checkFile w0 t1 t1).lg.fileName =
        pre ++ '.' :: (checkFile w0 t1 t1).lg.date.Format) ∧
    (∀ file, (checkFile w0 t1 t1).lg.lger = some (some file) →
      file.closed = false ∧
      file.path = joinFilePath (checkFile w0 t1 t1).lg.fileDir (checkFile w0 t1 t1).lg.fileName ∧
      ∃ pre, file.path = pre ++ '.' :: (checkFile w0 t1 t1).lg.date.Format)) ∧
    (checkFile w0 t1 t1).lg.fileName = "app.2024-01-01.2024-01-02".toList ∧
    (checkFile w0 t1 t1).lg.date.Format = "2024-01-02".toList :=
  ⟨Reachable.check w0 t1 t1 (Reachable.init fs0 t0 "logs".toList "app".toList),
   open_file_named_by_date fmt0 (checkFile w0 t1 t1)
     (Reachable.check w0 t1 t1 (Reachable.init fs0 t0 "logs".toList "app".toList)),
   by decide, by decide⟩

end Alog
